import Mathlib

/-!
Verification of the hybrid replication engine (`hybrid_sync.py`, `load_postgres.py`).

The engine replicates SQL Server tables into PostgreSQL.  We embed the
destination-side state and the pure decision logic of the engine:

* `Val` / `Row` / `Table` model a fetched `DataFrame`: a row is an association
  list from column name to a cell value (`SELECT *` result), a table carries
  its column list and its rows.
* `PgState` models the destination-side state relevant to one source table:
  the destination table (absent until created) together with the
  `sync_table_status.last_pk_value` checkpoint for that table.  The code
  stores the checkpoint as text and coerces it back to a number with
  `_coerce_param` before using it in a `WHERE marker > ?` comparison; the
  embedding keeps the round-tripped numeric value (`Option Int`).
* `should_skip_table`, `ensure_table_and_columns`, `full_sync_table`,
  `incremental_sync_table`, `fetchBatch` / `orderedTrace` (the
  `batch_fetch_new_rows` generator), and the orchestrator-level dispatch
  `process_database` are translated from `hybrid_sync.py`; the column-name
  cleaning of `create_table_with_proper_types` comes from `load_postgres.py`.
* The per-row `row_md5` content hash is kept abstract as a parameter
  `h : List String → String`: every theorem below holds for an arbitrary
  deterministic hash, of which MD5 over `str(tuple(...))` is one instance.
-/

namespace HybridSync

/-- A cell value observed in a fetched row: SQL NULL (pandas NaN), a string,
or an integer.  Integer cells double as ordered marker values. -/
inductive Val where
  | null : Val
  | str : String → Val
  | int : Int → Val
deriving DecidableEq, Repr

/-- A fetched row: association list from column name to cell value. -/
abbrev Row := List (String × Val)

/-- Cell of a row at a column; a column not present in the row reads as NULL. -/
def getVal (r : Row) (c : String) : Val :=
  match r.lookup c with
  | some v => v
  | none => Val.null

/-- The string rendering used by `row_md5`: rows are passed through
`fillna('')` (NULL becomes the empty string) and each cell through `str`. -/
def cellStr (r : Row) (c : String) : String :=
  match getVal r c with
  | Val.null => ""
  | Val.str s => s
  | Val.int n => toString n

/-- The numeric marker value of a row at the sync column (used by the
`WHERE [sync_col] > ?` comparison and by `df[sync_col].max()`). -/
def markerOf (sc : String) (r : Row) : Int :=
  match getVal r sc with
  | Val.int n => n
  | _ => 0

/-- A table as seen through pandas: column list plus rows. -/
structure Table where
  cols : List String
  rows : List Row
deriving DecidableEq, Repr

/-- Destination-side state for one source table: the destination table
(`none` until created) and the `last_pk_value` checkpoint. -/
structure PgState where
  dest : Option Table
  checkpoint : Option Int
deriving DecidableEq, Repr

/-- Python's `str.lower()` restricted to the characters we use. -/
def pyLower (s : String) : String :=
  String.mk (s.data.map Char.toLower)

/-- The character filter `c.isalnum() or c in '_-'` used both by
`server_clean` in `process_sql_server_hybrid` and by the column cleaning in
`ensure_table_and_columns` / `create_table_with_proper_types`. -/
def keepIdentChar (c : Char) : Bool :=
  c.isAlphanum || c = '_' || c = '-'

/-- Drop every character outside alphanumeric/underscore/hyphen
(`''.join(c for c in s if c.isalnum() or c in '_-')`). -/
def pySanitize (s : String) : String :=
  String.mk (s.data.filter keepIdentChar)

/-- The `.replace('-', '_').replace(' ', '_')` step applied to the combined
destination schema name. -/
def underscoreClean (s : String) : String :=
  String.mk (s.data.map (fun c => if c = '-' || c = ' ' then '_' else c))

/-- Destination schema name from `process_sql_server_hybrid` /
`full_sync_table` / `incremental_sync_table`:
`server_clean = ''.join(c for c in server if c.isalnum() or c in '_-')` and
`schema_name = (server_clean + "_" + db).replace('-', '_').replace(' ', '_')`. -/
def destSchemaName (server db : String) : String :=
  underscoreClean (pySanitize server ++ "_" ++ db)

/-- Destination table name: `table_name = f"{schema}_{table}"`. -/
def destTableName (schema table : String) : String :=
  schema ++ "_" ++ table

/-- The destination schema the spec sentence of C8 describes: every
non-alphanumeric character of the source host mapped to an underscore. -/
def claimDestSchema (server db : String) : String :=
  String.mk (server.data.map (fun c => if c.isAlphanum then c else '_')) ++ "_" ++ db

/-- The destination schema as the amended claim describes it: characters of
the host outside alphanumeric/underscore/hyphen are dropped, hyphens and
spaces of the host and of the database name are replaced by underscores, and
the two parts are joined with an underscore. -/
def amendedDestSchema (server db : String) : String :=
  underscoreClean (pySanitize server) ++ "_" ++ underscoreClean db

/-- Table skip predicate `should_skip_table` from `hybrid_sync.py`. -/
def should_skip_table (schema table : String) : Bool :=
  pyLower schema == "sys" ||
    (schema ++ "." ++ table) == "sys.trace_xe_event_map" ||
    (schema ++ "." ++ table) == "sys.trace_xe_action_map"

/-- Column cleaning applied when a destination column identifier is created
(`safe_col` in `ensure_table_and_columns`, `clean_col_name` in
`create_table_with_proper_types`). -/
def sanitizeCol (c : String) : String :=
  pySanitize c

/-- The missing-column computation of `ensure_table_and_columns`:
`missing = [c for c in df.columns if c not in existing_cols]` — note the raw
batch column name is compared against the existing destination columns. -/
def missingColumns (existingCols batchCols : List String) : List String :=
  batchCols.filter (fun c => decide (c ∉ existingCols))

/-- Destination column evolution: on creation every identifier is cleaned
(`create_table_with_proper_types`); on extension the raw-missing columns are
added with cleaned identifiers (`ALTER TABLE ... ADD COLUMN "safe_col"`). -/
def ensureCols (existing : Option (List String)) (batchCols : List String) : List String :=
  match existing with
  | none => batchCols.map sanitizeCol
  | some cs => cs ++ (missingColumns cs batchCols).map sanitizeCol

/-- `ensure_table_and_columns`: create the destination table (empty, cleaned
identifiers) when it does not exist, otherwise add the missing columns; rows
are untouched. -/
def ensure_table_and_columns (dst : Option Table) (batchCols : List String) : Table :=
  match dst with
  | none => { cols := ensureCols none batchCols, rows := [] }
  | some t => { cols := ensureCols (some t.cols) batchCols, rows := t.rows }

/-- Rows of an optional destination table (an absent table reads as empty). -/
def destRows (dst : Option Table) : List Row :=
  match dst with
  | none => []
  | some t => t.rows

/-- Pandas `series.max()` on a nonempty list (the default on `[]` is never
used by the engine: every `max` is taken over a nonempty fetch). -/
def listMax : List Int → Int
  | [] => 0
  | x :: xs => xs.foldl max x

/-- One SQL fetch of `batch_fetch_new_rows`:
`SELECT TOP (batch_size) * FROM t WHERE [sync_col] > marker ORDER BY [sync_col] ASC`.
The server restricts to rows strictly above the marker, sorts ascending by
the sync column, and returns at most `n` rows. -/
def fetchBatch (rows : List Row) (sc : String) (c : Int) (n : Nat) : List Row :=
  ((rows.filter (fun r => decide (c < markerOf sc r))).insertionSort
    (fun a b => markerOf sc a ≤ markerOf sc b)).take n

/-- Batches come back ascending in the sync column. -/
def markerSorted (sc : String) (l : List Row) : Prop :=
  l.Pairwise (fun a b => markerOf sc a ≤ markerOf sc b)

/-- One iteration of the `batch_fetch_new_rows` / `incremental_sync_table`
loop: the checkpoint the fetch was issued with, the batch, and the
checkpoint persisted after the batch (`df[sync_col].max()`). -/
structure Step where
  before : Int
  batch : List Row
  after : Int
deriving DecidableEq, Repr

/-- The `batch_fetch_new_rows` loop, fuelled: fetch, stop on an empty fetch,
otherwise record the batch and continue from the batch maximum.  Fuel
`rows.length + 1` always reaches the empty-fetch exit (`orderedTrace_final`
below), because each nonempty batch strictly shrinks the set of source rows
above the checkpoint. -/
def orderedTraceFuel (rows : List Row) (sc : String) (n : Nat) : Nat → Int → List Step
  | 0, _ => []
  | fuel + 1, c =>
    if fetchBatch rows sc c n = [] then []
    else
      { before := c, batch := fetchBatch rows sc c n,
        after := listMax ((fetchBatch rows sc c n).map (markerOf sc)) } ::
        orderedTraceFuel rows sc n fuel (listMax ((fetchBatch rows sc c n).map (markerOf sc)))

/-- The full trace of the ordered-batch loop started at checkpoint `c`. -/
def orderedTrace (rows : List Row) (sc : String) (n : Nat) (c : Int) : List Step :=
  orderedTraceFuel rows sc n (rows.length + 1) c

/-- The checkpoint left behind by a trace (`c` when there was no batch): the
`after` checkpoint of the last step. -/
def finalCk : List Step → Int → Int
  | [], c => c
  | s :: tr, _ => finalCk tr s.after

/-- The checkpoints of a trace chain up: each fetch is issued with the
checkpoint persisted by the previous batch. -/
def ckChain : Int → List Step → Prop
  | _, [] => True
  | c, s :: tr => s.before = c ∧ ckChain s.after tr

/-- The tuple of rendered cell values over the common column set, the input
of the per-row content hash (`tuple(str(x) for x in row)` after
`fillna('')`). -/
def rowKey (common : List String) (r : Row) : List String :=
  common.map (cellStr r)

/-- Hash-diff change detection: the source rows whose content hash over the
common column set is absent from the destination's hash set
(`src[~src['row_hash'].isin(dst['row_hash'])]`). -/
def hashNewRows (h : List String → String) (common : List String)
    (dstRows srcRows : List Row) : List Row :=
  srcRows.filter (fun r =>
    decide (h (rowKey common r) ∉ dstRows.map (fun d => h (rowKey common d))))

/-- One iteration of the ordered-batch loop body in `incremental_sync_table`:
`ensure_table_and_columns`, append the batch with `to_sql(..., 'append')`,
persist the batch maximum with `update_last_synced_pk`, count the rows. -/
def orderedStep (cols : List String) (acc : PgState × Nat) (s : Step) : PgState × Nat :=
  ({ dest := some { cols := (ensure_table_and_columns acc.1.dest cols).cols,
                    rows := (ensure_table_and_columns acc.1.dest cols).rows ++ s.batch },
     checkpoint := some s.after }, acc.2 + s.batch.length)

/-- FULL-mode replication of one table (`full_sync_table`): skip system
tables, no-op on an empty source, otherwise evolve the destination schema,
append every source row, and persist the maximum marker value when a marker
column was found among the fetched columns. -/
def full_sync_table (schema table : String)
    (src : Table) (syncCol : Option String) (st : PgState) : PgState × Nat :=
  if should_skip_table schema table then (st, 0)
  else if src.rows = [] then (st, 0)
  else
    let t := ensure_table_and_columns st.dest src.cols
    let ck := match syncCol with
      | some sc =>
        if decide (sc ∈ src.cols) then some (listMax (src.rows.map (markerOf sc)))
        else st.checkpoint
      | none => st.checkpoint
    ({ dest := some { cols := t.cols, rows := t.rows ++ src.rows }, checkpoint := ck },
      src.rows.length)

/-- The hash-based branch of `incremental_sync_table` for a table with a
marker column but no recorded checkpoint (`last_value is None`,
`hybrid_sync.py` lines 492-544): fetch the full source, evolve the
destination, insert everything when the destination reads back empty,
otherwise insert the rows whose hash over the common column set is unseen;
the source maximum marker is persisted only on the inserting paths and only
when the marker column is among the fetched columns. -/
def hash_dedup_no_checkpoint (h : List String → String) (src : Table) (sc : String)
    (st : PgState) : PgState × Nat :=
  if src.rows = [] then (st, 0)
  else if (ensure_table_and_columns st.dest src.cols).rows = [] then
    ({ dest := some { cols := (ensure_table_and_columns st.dest src.cols).cols,
                      rows := (ensure_table_and_columns st.dest src.cols).rows ++ src.rows },
       checkpoint :=
         if decide (sc ∈ src.cols) then some (listMax (src.rows.map (markerOf sc)))
         else st.checkpoint }, src.rows.length)
  else if src.cols.filter
      (fun c => decide (c ∈ (ensure_table_and_columns st.dest src.cols).cols)) = [] then
    ({ dest := some (ensure_table_and_columns st.dest src.cols),
       checkpoint := st.checkpoint }, 0)
  else if hashNewRows h
      (src.cols.filter (fun c => decide (c ∈ (ensure_table_and_columns st.dest src.cols).cols)))
      (ensure_table_and_columns st.dest src.cols).rows src.rows = [] then
    ({ dest := some (ensure_table_and_columns st.dest src.cols),
       checkpoint := st.checkpoint }, 0)
  else
    ({ dest := some { cols := (ensure_table_and_columns st.dest src.cols).cols,
                      rows := (ensure_table_and_columns st.dest src.cols).rows
                        ++ hashNewRows h
                            (src.cols.filter (fun c =>
                              decide (c ∈ (ensure_table_and_columns st.dest src.cols).cols)))
                            (ensure_table_and_columns st.dest src.cols).rows src.rows },
       checkpoint :=
         if decide (sc ∈ src.cols) then some (listMax (src.rows.map (markerOf sc)))
         else st.checkpoint },
      (hashNewRows h
        (src.cols.filter (fun c =>
          decide (c ∈ (ensure_table_and_columns st.dest src.cols).cols)))
        (ensure_table_and_columns st.dest src.cols).rows src.rows).length)

/-- The common column set of the hash-diff fallback:
`list(set(df.columns) & set(dst_df.columns)) if not dst_df.empty else
list(df.columns)`. -/
def commonCols (src t : Table) : List String :=
  if t.rows ≠ [] then src.cols.filter (fun c => decide (c ∈ t.cols)) else src.cols

/-- The hash-diff fallback branch of `incremental_sync_table` for a table
without any marker column (`hybrid_sync.py` lines 556-592): full-source
fetch, schema evolution, hash comparison over the common column set, append
of unseen rows; the checkpoint is never written on this path. -/
def hash_diff_sync (h : List String → String) (src : Table) (st : PgState) : PgState × Nat :=
  if src.rows = [] then (st, 0)
  else if commonCols src (ensure_table_and_columns st.dest src.cols) = [] then
    ({ dest := some (ensure_table_and_columns st.dest src.cols),
       checkpoint := st.checkpoint }, 0)
  else if (ensure_table_and_columns st.dest src.cols).rows = [] then
    ({ dest := some { cols := (ensure_table_and_columns st.dest src.cols).cols,
                      rows := (ensure_table_and_columns st.dest src.cols).rows ++ src.rows },
       checkpoint := st.checkpoint }, src.rows.length)
  else if hashNewRows h (commonCols src (ensure_table_and_columns st.dest src.cols))
      (ensure_table_and_columns st.dest src.cols).rows src.rows = [] then
    ({ dest := some (ensure_table_and_columns st.dest src.cols),
       checkpoint := st.checkpoint }, 0)
  else
    ({ dest := some { cols := (ensure_table_and_columns st.dest src.cols).cols,
                      rows := (ensure_table_and_columns st.dest src.cols).rows
                        ++ hashNewRows h (commonCols src (ensure_table_and_columns st.dest src.cols))
                            (ensure_table_and_columns st.dest src.cols).rows src.rows },
       checkpoint := st.checkpoint },
      (hashNewRows h (commonCols src (ensure_table_and_columns st.dest src.cols))
        (ensure_table_and_columns st.dest src.cols).rows src.rows).length)

/-- INCREMENTAL-mode replication of one table (`incremental_sync_table`):
skip system tables; empty-source guard when a checkpoint exists; with a
marker column and no checkpoint, hash-based dedup over the full table; with
a marker column and a checkpoint, the ordered-batch loop; without a marker
column, the hash-diff fallback. -/
def incremental_sync_table (h : List String → String) (schema table : String)
    (src : Table) (syncCol : Option String) (batchSize : Nat) (st : PgState) :
    PgState × Nat :=
  if should_skip_table schema table then (st, 0)
  else if st.checkpoint.isSome ∧ src.rows.length = 0 then (st, 0)
  else
    match syncCol with
    | some sc =>
      match st.checkpoint with
      | none => hash_dedup_no_checkpoint h src sc st
      | some c0 =>
        (orderedTrace src.rows sc batchSize c0).foldl (orderedStep src.cols) (st, 0)
    | none => hash_diff_sync h src st

/-- Iterated incremental passes over one table with a marker column: each
pass reads the state left by the previous one (the scheduler re-invoking the
engine); the source seen by pass `N` may differ between passes. -/
def incremental_passes (h : List String → String) (schema table : String)
    (srcs : Nat → Table) (sc : String) (bs : Nat) (st0 : PgState) : Nat → PgState
  | 0 => st0
  | N + 1 =>
    (incremental_sync_table h schema table (srcs N) (some sc) bs
      (incremental_passes h schema table srcs sc bs st0 N)).1

/-- Mode of a whole-database pass. -/
inductive Mode where
  | full : Mode
  | incremental : Mode
deriving DecidableEq, Repr

/-- A row of `sync_database_status` as returned by `get_sync_status`:
`last_full_sync`, `last_incremental_sync` (timestamps as abstract numbers)
and the stored `sync_status` text. -/
structure DbStatusRow where
  lastFullSync : Option Nat
  lastIncrementalSync : Option Nat
  syncStatus : String
deriving DecidableEq, Repr

/-- `get_sync_status`: the `sync_database_status` row keyed by
`(server_name, database_name)`, or `None` when no row exists. -/
def get_sync_status (statusTable : List ((String × String) × DbStatusRow))
    (server db : String) : Option DbStatusRow :=
  statusTable.lookup (server, db)

/-- Everything the per-table replicators consume for one table of a
database: identity, fetched source table, the marker-column descriptor, and
the destination-side state for that table. -/
structure TableJob where
  schema : String
  table : String
  src : Table
  syncCol : Option String
  st : PgState
deriving DecidableEq, Repr

/-- Run one table in the given mode (the per-table call made by
`full_sync_database` / `incremental_sync_database`). -/
def run_table (h : List String → String) (batchSize : Nat) (mode : Mode)
    (j : TableJob) : PgState × Nat :=
  match mode with
  | Mode.full => full_sync_table j.schema j.table j.src j.syncCol j.st
  | Mode.incremental =>
    incremental_sync_table h j.schema j.table j.src j.syncCol batchSize j.st

/-- The per-database dispatch of `process_sql_server_hybrid`:
`if sync_status is None:` run the FULL pass over every table, `else` run the
INCREMENTAL pass over every table — only presence of the row is inspected. -/
def process_database (h : List String → String) (batchSize : Nat)
    (status : Option DbStatusRow) (jobs : List TableJob) : List (PgState × Nat) :=
  match status with
  | none => jobs.map (run_table h batchSize Mode.full)
  | some _ => jobs.map (run_table h batchSize Mode.incremental)

/-- Outcome of one table inside a database pass: processed row count, or the
exception it raised. -/
abbrev TableOutcome := Except String Nat

/-- Outcome of enumerating the tables of one database (`cursor.tables(...)`
may raise) together with the per-table outcomes. -/
abbrev DbPass := Except String (List TableOutcome)

/-- Error flow of `full_sync_database` / `incremental_sync_database`: a
table-enumeration failure propagates as an exception; per-table exceptions
are caught, logged and not counted (`processed_count += 1 if processed > 0
else 0` inside a `try`/`except`). -/
def database_pass (tables : DbPass) : Except String Nat :=
  match tables with
  | Except.error e => Except.error e
  | Except.ok ts =>
    Except.ok (ts.foldl (fun acc r =>
      match r with
      | Except.ok n => if 0 < n then acc + 1 else acc
      | Except.error _ => acc) 0)

/-- `full_sync_database` error flow. -/
def full_sync_database (tables : DbPass) : Except String Nat :=
  database_pass tables

/-- `incremental_sync_database` error flow. -/
def incremental_sync_database (tables : DbPass) : Except String Nat :=
  database_pass tables

/-- The body of the `try:` block of `process_sql_server_hybrid`: enumerate
the databases (`get_all_databases` may raise), then run one database pass
per database; a database-level exception aborts the loop and propagates. -/
def server_try_body (dbs : Except String (List DbPass)) : Except String Unit :=
  match dbs with
  | Except.error e => Except.error e
  | Except.ok l => l.foldlM (fun _ d => (database_pass d).map (fun _ => ())) ()

/-- `process_sql_server_hybrid`: the whole body runs under
`try: ... except Exception as e: logging.error(...)` — every exception is
caught and logged, and the function returns normally to its caller. -/
def process_sql_server_hybrid (dbs : Except String (List DbPass)) : Except String Unit :=
  match server_try_body dbs with
  | Except.error _ => Except.ok ()
  | Except.ok _ => Except.ok ()

/-- A concrete content hash standing in for `row_md5` in witnesses: any
deterministic function of the rendered tuple works. -/
def exHash : List String → String :=
  String.intercalate "|"

/-- Witness data: a one-column, one-row source table with integer key 1. -/
def exSrc1 : Table :=
  { cols := ["id"], rows := [[("id", Val.int 1)]] }

/-- Witness data: a three-row source table with integer keys 1..3. -/
def exSrc3 : Table :=
  { cols := ["id", "v"],
    rows := [[("id", Val.int 1), ("v", Val.str "a")],
             [("id", Val.int 2), ("v", Val.str "b")],
             [("id", Val.int 3), ("v", Val.null)]] }

/-- Witness data: a destination state already holding the row of `exSrc1`,
with no checkpoint recorded. -/
def exStDup : PgState :=
  { dest := some { cols := ["id"], rows := [[("id", Val.int 1)]] }, checkpoint := none }

/-- Witness data: destination state with a checkpoint at 1 and the first row
already shipped. -/
def exStCk1 : PgState :=
  { dest := some { cols := ["id", "v"], rows := [[("id", Val.int 1), ("v", Val.str "a")]] },
    checkpoint := some 1 }

/-- Witness data: a `sync_database_status` row whose stored status is
FAILED, to show the stored value is not inspected. -/
def exRowFailed : DbStatusRow :=
  { lastFullSync := some 10, lastIncrementalSync := none, syncStatus := "FAILED" }

/-- Witness data: one table job. -/
def exJob : TableJob :=
  { schema := "dbo", table := "items", src := exSrc3, syncCol := some "id",
    st := { dest := none, checkpoint := none } }

theorem init_le_foldl_max (xs : List Int) : ∀ (x : Int), x ≤ xs.foldl max x := by
  induction xs with
  | nil => intro x; exact le_refl x
  | cons a xs ih =>
    intro x
    calc x ≤ max x a := le_max_left x a
      _ ≤ List.foldl max (max x a) xs := ih (max x a)

theorem le_foldl_max (xs : List Int) : ∀ (x y : Int), y ∈ xs → y ≤ xs.foldl max x := by
  induction xs with
  | nil => intro x y hy; cases hy
  | cons a xs ih =>
    intro x y hy
    rcases List.mem_cons.mp hy with rfl | hy
    · calc y ≤ max x y := le_max_right x y
        _ ≤ List.foldl max (max x y) xs := init_le_foldl_max xs (max x y)
    · exact ih (max x a) y hy

theorem foldl_max_mem (xs : List Int) :
    ∀ (x : Int), xs.foldl max x = x ∨ xs.foldl max x ∈ xs := by
  induction xs with
  | nil => intro x; exact Or.inl rfl
  | cons a xs ih =>
    intro x
    rcases ih (max x a) with h | h
    · rcases max_choice x a with hm | hm
      · exact Or.inl (by rw [List.foldl_cons, h, hm])
      · exact Or.inr (by rw [List.foldl_cons, h, hm]; exact List.mem_cons_self a xs)
    · exact Or.inr (List.mem_cons_of_mem a h)

theorem listMax_mem (l : List Int) (hl : l ≠ []) : listMax l ∈ l := by
  match l with
  | [] => exact absurd rfl hl
  | x :: xs =>
    rcases foldl_max_mem xs x with h | h
    · rw [listMax, h]; exact List.mem_cons_self x xs
    · exact List.mem_cons_of_mem x h

theorem le_listMax (l : List Int) (y : Int) (hy : y ∈ l) : y ≤ listMax l := by
  match l with
  | [] => cases hy
  | x :: xs =>
    rcases List.mem_cons.mp hy with rfl | hy
    · rw [listMax]; exact init_le_foldl_max xs y
    · exact le_foldl_max xs x y hy

theorem mem_fetchBatch {rows : List Row} {sc : String} {c : Int} {n : Nat} {r : Row}
    (hr : r ∈ fetchBatch rows sc c n) : r ∈ rows ∧ c < markerOf sc r := by
  have h1 : r ∈ (rows.filter (fun r => decide (c < markerOf sc r))).insertionSort
      (fun a b => markerOf sc a ≤ markerOf sc b) := List.mem_of_mem_take hr
  have h2 : r ∈ rows.filter (fun r => decide (c < markerOf sc r)) :=
    (List.perm_insertionSort _ _).mem_iff.mp h1
  have h3 := List.mem_filter.mp h2
  exact ⟨h3.1, of_decide_eq_true h3.2⟩

theorem length_fetchBatch_le (rows : List Row) (sc : String) (c : Int) (n : Nat) :
    (fetchBatch rows sc c n).length ≤ n :=
  List.length_take_le n _

theorem sorted_fetchBatch (rows : List Row) (sc : String) (c : Int) (n : Nat) :
    markerSorted sc (fetchBatch rows sc c n) := by
  have ht : IsTotal Row (fun a b => markerOf sc a ≤ markerOf sc b) :=
    ⟨fun a b => le_total (markerOf sc a) (markerOf sc b)⟩
  have htr : IsTrans Row (fun a b => markerOf sc a ≤ markerOf sc b) :=
    ⟨fun a b c h1 h2 => le_trans h1 h2⟩
  have hs : List.Sorted (fun a b => markerOf sc a ≤ markerOf sc b)
      ((rows.filter (fun r => decide (c < markerOf sc r))).insertionSort
        (fun a b => markerOf sc a ≤ markerOf sc b)) :=
    List.sorted_insertionSort _ _
  exact hs.sublist (List.take_sublist _ _)

theorem length_filter_lt_of_impl (l : List Row) (p q : Row → Bool)
    (himp : ∀ x, q x = true → p x = true)
    (hx : ∃ x, x ∈ l ∧ p x = true ∧ q x = false) :
    (l.filter q).length < (l.filter p).length := by
  induction l with
  | nil => rcases hx with ⟨x, hmem, _⟩; cases hmem
  | cons a l ih =>
    have hsub : List.Sublist (l.filter q) (l.filter p) :=
      List.monotone_filter_right l himp
    rcases hx with ⟨x, hmem, hpx, hqx⟩
    rcases List.mem_cons.mp hmem with rfl | hmem
    · simp only [List.filter_cons, hpx, hqx]
      simp only [if_true, if_false, Bool.false_eq_true]
      exact Nat.lt_succ_of_le hsub.length_le
    · have hlt := ih ⟨x, hmem, hpx, hqx⟩
      by_cases hqa : q a = true
      · simp only [List.filter_cons, hqa, himp a hqa, if_true]
        exact Nat.succ_lt_succ hlt
      · simp only [List.filter_cons, hqa]
        by_cases hpa : p a = true
        · simp only [hpa, if_true, Bool.false_eq_true, if_false]
          exact Nat.lt_succ_of_lt hlt
        · simp only [hpa, Bool.false_eq_true, if_false]
          exact hlt

theorem lt_listMax_fetchBatch {rows : List Row} {sc : String} {c : Int} {n : Nat}
    (hb : fetchBatch rows sc c n ≠ []) :
    c < listMax ((fetchBatch rows sc c n).map (markerOf sc)) ∧
    ∃ r0, r0 ∈ rows ∧ c < markerOf sc r0 ∧
      markerOf sc r0 = listMax ((fetchBatch rows sc c n).map (markerOf sc)) := by
  have hmapne : (fetchBatch rows sc c n).map (markerOf sc) ≠ [] := by
    intro h
    exact hb (List.map_eq_nil_iff.mp h)
  have hmem := listMax_mem _ hmapne
  rcases List.mem_map.mp hmem with ⟨r0, hr0, hm⟩
  have h2 := mem_fetchBatch hr0
  exact ⟨hm ▸ h2.2, r0, h2.1, h2.2, hm⟩

theorem fetch_measure_lt (rows : List Row) (sc : String) (c : Int) (n : Nat)
    (hb : fetchBatch rows sc c n ≠ []) :
    (rows.filter (fun r =>
        decide (listMax ((fetchBatch rows sc c n).map (markerOf sc)) < markerOf sc r))).length <
    (rows.filter (fun r => decide (c < markerOf sc r))).length := by
  obtain ⟨hcm, r0, hr0rows, _, hr0max⟩ := lt_listMax_fetchBatch hb
  apply length_filter_lt_of_impl
  · intro x hx
    exact decide_eq_true (lt_trans hcm (of_decide_eq_true hx))
  · refine ⟨r0, hr0rows, decide_eq_true (hr0max ▸ hcm), ?_⟩
    rw [decide_eq_false_iff_not, hr0max]
    exact lt_irrefl _

theorem finalCk_cons (s : Step) (tr : List Step) (c : Int) :
    finalCk (s :: tr) c = finalCk tr s.after := rfl

theorem orderedTraceFuel_steps (rows : List Row) (sc : String) (n : Nat) :
    ∀ (fuel : Nat) (c : Int) (s : Step), s ∈ orderedTraceFuel rows sc n fuel c →
      s.batch = fetchBatch rows sc s.before n ∧ s.batch ≠ [] ∧
      s.after = listMax (s.batch.map (markerOf sc)) := by
  intro fuel
  induction fuel with
  | zero => intro c s hs; cases hs
  | succ fuel ih =>
    intro c s hs
    simp only [orderedTraceFuel] at hs
    by_cases hb : fetchBatch rows sc c n = []
    · rw [if_pos hb] at hs; cases hs
    · rw [if_neg hb] at hs
      rcases List.mem_cons.mp hs with rfl | hs
      · exact ⟨rfl, hb, rfl⟩
      · exact ih _ s hs

theorem orderedTraceFuel_chain (rows : List Row) (sc : String) (n : Nat) :
    ∀ (fuel : Nat) (c : Int), ckChain c (orderedTraceFuel rows sc n fuel c) := by
  intro fuel
  induction fuel with
  | zero => intro c; trivial
  | succ fuel ih =>
    intro c
    simp only [orderedTraceFuel]
    by_cases hb : fetchBatch rows sc c n = []
    · rw [if_pos hb]; trivial
    · rw [if_neg hb]; exact ⟨rfl, ih _⟩

theorem orderedTraceFuel_final (rows : List Row) (sc : String) (n : Nat) :
    ∀ (fuel : Nat) (c : Int),
      (rows.filter (fun r => decide (c < markerOf sc r))).length < fuel →
      fetchBatch rows sc (finalCk (orderedTraceFuel rows sc n fuel c) c) n = [] := by
  intro fuel
  induction fuel with
  | zero => intro c hlt; exact absurd hlt (Nat.not_lt_zero _)
  | succ fuel ih =>
    intro c hlt
    simp only [orderedTraceFuel]
    by_cases hb : fetchBatch rows sc c n = []
    · rw [if_pos hb]; exact hb
    · rw [if_neg hb, finalCk_cons]
      apply ih
      have hdec := fetch_measure_lt rows sc c n hb
      omega

theorem le_finalCk_orderedTraceFuel (rows : List Row) (sc : String) (n : Nat) :
    ∀ (fuel : Nat) (c : Int), c ≤ finalCk (orderedTraceFuel rows sc n fuel c) c := by
  intro fuel
  induction fuel with
  | zero => intro c; exact le_refl c
  | succ fuel ih =>
    intro c
    simp only [orderedTraceFuel]
    by_cases hb : fetchBatch rows sc c n = []
    · rw [if_pos hb]; exact le_refl c
    · rw [if_neg hb, finalCk_cons]
      exact le_trans (le_of_lt (lt_listMax_fetchBatch hb).1) (ih _)

theorem orderedTrace_steps (rows : List Row) (sc : String) (n : Nat) (c : Int) :
    ∀ s ∈ orderedTrace rows sc n c,
      s.batch = fetchBatch rows sc s.before n ∧ s.batch ≠ [] ∧
      s.after = listMax (s.batch.map (markerOf sc)) :=
  fun s hs => orderedTraceFuel_steps rows sc n _ c s hs

theorem orderedTrace_chain (rows : List Row) (sc : String) (n : Nat) (c : Int) :
    ckChain c (orderedTrace rows sc n c) :=
  orderedTraceFuel_chain rows sc n _ c

theorem orderedTrace_final (rows : List Row) (sc : String) (n : Nat) (c : Int) :
    fetchBatch rows sc (finalCk (orderedTrace rows sc n c) c) n = [] :=
  orderedTraceFuel_final rows sc n _ c
    (Nat.lt_succ_of_le (List.length_filter_le _ _))

theorem le_finalCk_orderedTrace (rows : List Row) (sc : String) (n : Nat) (c : Int) :
    c ≤ finalCk (orderedTrace rows sc n c) c :=
  le_finalCk_orderedTraceFuel rows sc n _ c

theorem ensure_rows (d : Option Table) (bc : List String) :
    (ensure_table_and_columns d bc).rows = destRows d := by
  cases d <;> rfl

theorem ensure_cols_eq (d : Option Table) (bc : List String) :
    (ensure_table_and_columns d bc).cols = ensureCols (d.map Table.cols) bc := by
  cases d <;> rfl

theorem foldl_orderedStep_processed (cols : List String) :
    ∀ (tr : List Step) (acc : PgState × Nat),
      (tr.foldl (orderedStep cols) acc).2
        = acc.2 + (tr.map (fun s => s.batch.length)).sum := by
  intro tr
  induction tr with
  | nil => intro acc; simp
  | cons s tr ih =>
    intro acc
    rw [List.foldl_cons, ih]
    simp only [orderedStep, List.map_cons, List.sum_cons]
    omega

theorem foldl_orderedStep_checkpoint (cols : List String) :
    ∀ (tr : List Step) (acc : PgState × Nat) (c : Int), tr ≠ [] →
      (tr.foldl (orderedStep cols) acc).1.checkpoint = some (finalCk tr c) := by
  intro tr
  induction tr with
  | nil => intro acc c hne; exact absurd rfl hne
  | cons s tr ih =>
    intro acc c hne
    rw [List.foldl_cons, finalCk_cons]
    by_cases htr : tr = []
    · subst htr; rfl
    · exact ih _ s.after htr

theorem foldl_orderedStep_rows (cols : List String) :
    ∀ (tr : List Step) (acc : PgState × Nat),
      destRows (tr.foldl (orderedStep cols) acc).1.dest
        = destRows acc.1.dest ++ (tr.map Step.batch).flatten := by
  intro tr
  induction tr with
  | nil => intro acc; simp
  | cons s tr ih =>
    intro acc
    rw [List.foldl_cons, ih]
    have hstep : destRows (orderedStep cols acc s).1.dest
        = destRows acc.1.dest ++ s.batch := by
      simp only [orderedStep, destRows, ensure_rows]
    rw [hstep]
    simp [List.append_assoc]

theorem mem_ensureCols_twice (d : Option (List String)) (bc : List String) (c : String) :
    c ∈ ensureCols (some (ensureCols d bc)) bc ↔ c ∈ ensureCols d bc := by
  constructor
  · intro hmem
    rcases List.mem_append.mp hmem with hmem | hmem
    · exact hmem
    · rcases List.mem_map.mp hmem with ⟨c1, hc1, hsan⟩
      have hfil := List.mem_filter.mp hc1
      have hc1bc : c1 ∈ bc := hfil.1
      have hnot : c1 ∉ ensureCols d bc := of_decide_eq_true hfil.2
      cases d with
      | none =>
        exact hsan ▸ List.mem_map_of_mem sanitizeCol hc1bc
      | some cs0 =>
        have hnot0 : c1 ∉ cs0 := fun hmem0 => hnot (List.mem_append_left _ hmem0)
        have hmiss : c1 ∈ missingColumns cs0 bc :=
          List.mem_filter.mpr ⟨hc1bc, decide_eq_true hnot0⟩
        exact hsan ▸ List.mem_append_right _ (List.mem_map_of_mem sanitizeCol hmiss)
  · intro hmem
    exact List.mem_append_left _ hmem

theorem filter_ensureCols_twice (d : Option (List String)) (bc : List String) :
    bc.filter (fun c => decide (c ∈ ensureCols (some (ensureCols d bc)) bc))
      = bc.filter (fun c => decide (c ∈ ensureCols d bc)) := by
  apply List.filter_congr
  intro c hc
  exact decide_eq_decide.mpr (mem_ensureCols_twice d bc c)

/-- C8 (counterexample): the claim maps every non-alphanumeric host
character to an underscore, but the code drops such characters instead: for
host "my.host" and database "db" the code produces schema "myhost_db" while
the claimed function produces "my_host_db". -/
theorem c8_dest_naming_counterexample :
    destSchemaName "my.host" "db" = "myhost_db" ∧
    claimDestSchema "my.host" "db" = "my_host_db" ∧
    destSchemaName "my.host" "db" ≠ claimDestSchema "my.host" "db" := by
  refine ⟨?_, ?_, ?_⟩ <;> decide

/-- C8 (amended): destination naming is the deterministic pure function
where the host keeps only alphanumeric/underscore/hyphen characters, the
combined schema name has hyphens and spaces replaced by underscores, and the
destination table is source schema ++ "_" ++ source table. -/
theorem c8_dest_naming_amended (server db schema table : String) :
    destSchemaName server db = amendedDestSchema server db ∧
    destTableName schema table = schema ++ "_" ++ table := by
  refine ⟨?_, rfl⟩
  show underscoreClean (pySanitize server ++ "_" ++ db)
    = underscoreClean (pySanitize server) ++ "_" ++ underscoreClean db
  have hext : ∀ (a b : String), a.data = b.data → a = b := by
    intro a b hab
    cases a
    cases b
    exact congrArg String.mk (by simpa using hab)
  apply hext
  have hmkdata : ∀ l : List Char, (String.mk l).data = l := fun l => rfl
  simp only [underscoreClean, pySanitize, hmkdata, String.data_append, List.map_append]
  rfl

/-- C10: tables whose schema is `sys` in any letter case, and the two
qualified `sys.trace_xe_*` map tables, are skipped: `should_skip_table`
returns true and both FULL-mode and INCREMENTAL-mode replication return 0
without touching the destination table or the checkpoint. -/
theorem c10_system_tables_skipped (schema table : String)
    (hcond : pyLower schema = "sys" ∨ schema ++ "." ++ table = "sys.trace_xe_event_map" ∨
      schema ++ "." ++ table = "sys.trace_xe_action_map") :
    should_skip_table schema table = true ∧
    ∀ (h : List String → String) (src : Table) (syncCol : Option String) (bs : Nat)
      (st : PgState),
      full_sync_table schema table src syncCol st = (st, 0) ∧
      incremental_sync_table h schema table src syncCol bs st = (st, 0) := by
  have hskip : should_skip_table schema table = true := by
    unfold should_skip_table
    rcases hcond with h1 | h1 | h1 <;> simp [h1]
  refine ⟨hskip, fun h src syncCol bs st => ⟨?_, ?_⟩⟩
  · simp [full_sync_table, hskip]
  · simp [incremental_sync_table, hskip]

/-- C10 witness: the skip applies concretely to schema "SYS". -/
theorem c10_system_tables_skipped_witness :
    should_skip_table "SYS" "foo" = true ∧
    full_sync_table "SYS" "foo" exSrc1 none { dest := none, checkpoint := none }
      = ({ dest := none, checkpoint := none }, 0) ∧
    incremental_sync_table exHash "SYS" "foo" exSrc1 none 5
        { dest := none, checkpoint := none }
      = ({ dest := none, checkpoint := none }, 0) :=
  have hc := c10_system_tables_skipped "SYS" "foo" (Or.inl (by decide))
  ⟨hc.1, (hc.2 exHash exSrc1 none 5 _).1, (hc.2 exHash exSrc1 none 5 _).2⟩

/-- C7 (counterexample): with destination columns `["ab"]` and a batch
column "a b" whose cleaned identifier "ab" already exists, the comparison
uses the raw name, so the column is reported missing and its cleaned
identifier is re-added by `ensure_table_and_columns`. -/
theorem c7_sanitize_counterexample :
    sanitizeCol "a b" = "ab" ∧
    sanitizeCol "a b" ∈ (["ab"] : List String) ∧
    missingColumns ["ab"] ["a b"] = ["a b"] ∧
    (ensure_table_and_columns (some { cols := ["ab"], rows := [] }) ["a b"]).cols
      = ["ab", "ab"] := by
  refine ⟨?_, ?_, ?_, ?_⟩ <;> decide

/-- C7 (amended): sanitization is applied when destination column
identifiers are created (table creation and column addition) but not when
batch columns are compared against existing columns — a batch column is
reported missing exactly when its raw name is absent from the existing
destination columns. -/
theorem c7_sanitize_amended (existingCols batchCols : List String) (t : Table) (c : String) :
    (c ∈ missingColumns existingCols batchCols ↔ c ∈ batchCols ∧ c ∉ existingCols) ∧
    (ensure_table_and_columns (some t) batchCols).cols
      = t.cols ++ (missingColumns t.cols batchCols).map sanitizeCol ∧
    (ensure_table_and_columns none batchCols).cols = batchCols.map sanitizeCol := by
  refine ⟨?_, rfl, rfl⟩
  simp [missingColumns]

/-- C4: with a recorded checkpoint and an empty source table, the
incremental pass returns processed count 0 and leaves the whole
destination-side state (destination table and checkpoint) unchanged. -/
theorem c4_empty_source_guard (h : List String → String) (schema table : String)
    (src : Table) (syncCol : Option String) (bs : Nat) (st : PgState) (c0 : Int)
    (hck : st.checkpoint = some c0) (hsrc : src.rows = []) :
    incremental_sync_table h schema table src syncCol bs st = (st, 0) := by
  unfold incremental_sync_table
  by_cases hskip : should_skip_table schema table = true
  · simp [hskip]
  · have hguard : st.checkpoint.isSome ∧ src.rows.length = 0 :=
      ⟨by rw [hck]; rfl, by rw [hsrc]; rfl⟩
    simp [hskip, hguard]

/-- C4 witness: concrete empty source with checkpoint 1. -/
theorem c4_empty_source_guard_witness :
    incremental_sync_table exHash "dbo" "items" { cols := ["id"], rows := [] } (some "id")
      1000 exStCk1 = (exStCk1, 0) :=
  c4_empty_source_guard exHash "dbo" "items" { cols := ["id"], rows := [] } (some "id")
    1000 exStCk1 1 rfl rfl

/-- C1: the per-database dispatch inspects only the presence of the
`sync_database_status` row: absent row → FULL replication of every table,
present row → INCREMENTAL replication of every table, independent of the
stored status value. -/
theorem c1_full_vs_incremental_dispatch (h : List String → String) (bs : Nat)
    (statusTable : List ((String × String) × DbStatusRow)) (server db : String)
    (jobs : List TableJob) :
    (get_sync_status statusTable server db = none →
      process_database h bs (get_sync_status statusTable server db) jobs
        = jobs.map (fun j => full_sync_table j.schema j.table j.src j.syncCol j.st)) ∧
    (∀ row, get_sync_status statusTable server db = some row →
      process_database h bs (get_sync_status statusTable server db) jobs
        = jobs.map (fun j =>
            incremental_sync_table h j.schema j.table j.src j.syncCol bs j.st)) ∧
    (∀ row row' : DbStatusRow,
      process_database h bs (some row) jobs = process_database h bs (some row') jobs) := by
  refine ⟨fun hnone => ?_, fun row hsome => ?_, fun row row' => rfl⟩
  · rw [hnone]; rfl
  · rw [hsome]; rfl

/-- C1 witness: with no status row the pass is the FULL pass; with a stored
FAILED row it is the INCREMENTAL pass. -/
theorem c1_full_vs_incremental_dispatch_witness :
    process_database exHash 10 (get_sync_status [] "srv" "db") [exJob]
      = [full_sync_table exJob.schema exJob.table exJob.src exJob.syncCol exJob.st] ∧
    process_database exHash 10
        (get_sync_status [(("srv", "db"), exRowFailed)] "srv" "db") [exJob]
      = [incremental_sync_table exHash exJob.schema exJob.table exJob.src exJob.syncCol 10
          exJob.st] :=
  ⟨(c1_full_vs_incremental_dispatch exHash 10 [] "srv" "db" [exJob]).1 rfl,
   (c1_full_vs_incremental_dispatch exHash 10 [(("srv", "db"), exRowFailed)] "srv" "db"
      [exJob]).2.1 exRowFailed (by decide)⟩

/-- C9 (counterexample): a database-level connectivity failure reaches the
per-server handler, but `process_sql_server_hybrid` catches it and returns
normally instead of reporting the exception upward to its caller. -/
theorem c9_error_swallowed_counterexample :
    server_try_body (Except.error "cannot connect to source")
      = Except.error "cannot connect to source" ∧
    process_sql_server_hybrid (Except.error "cannot connect to source") = Except.ok () ∧
    (Except.ok () : Except String Unit) ≠ Except.error "cannot connect to source" :=
  ⟨rfl, rfl, fun hcontra => Except.noConfusion hcontra⟩

theorem incr_ordered_run (h : List String → String) (schema table : String)
    (src : Table) (sc : String) (bs : Nat) (d : Option Table) (c0 : Int)
    (hskip : should_skip_table schema table = false)
    (hne : src.rows ≠ []) :
    incremental_sync_table h schema table src (some sc) bs
        { dest := d, checkpoint := some c0 }
      = (orderedTrace src.rows sc bs c0).foldl (orderedStep src.cols)
          ({ dest := d, checkpoint := some c0 }, 0) := by
  unfold incremental_sync_table
  have hg : ¬ ((some c0 : Option Int).isSome ∧ src.rows.length = 0) := by
    intro hg
    exact hne (List.length_eq_zero.mp hg.2)
  simp only [hskip, Bool.false_eq_true, if_false]
  rw [if_neg hg]

theorem checkpoint_mono_single (h : List String → String) (schema table : String)
    (src : Table) (sc : String) (bs : Nat) (st : PgState) (c0 : Int)
    (hck : st.checkpoint = some c0) :
    ∃ c1, (incremental_sync_table h schema table src (some sc) bs st).1.checkpoint
        = some c1 ∧ c0 ≤ c1 := by
  obtain ⟨d, ck⟩ := st
  replace hck : ck = some c0 := hck
  subst hck
  by_cases hskip : should_skip_table schema table = true
  · refine ⟨c0, ?_, le_refl c0⟩
    unfold incremental_sync_table
    rw [if_pos hskip]
  · have hskipf : should_skip_table schema table = false := by
      simpa using hskip
    by_cases hne : src.rows = []
    · refine ⟨c0, ?_, le_refl c0⟩
      unfold incremental_sync_table
      rw [if_neg hskip, if_pos ⟨rfl, List.length_eq_zero.mpr hne⟩]
    · rw [incr_ordered_run h schema table src sc bs d c0 hskipf hne]
      by_cases htr : orderedTrace src.rows sc bs c0 = []
      · rw [htr]
        exact ⟨c0, rfl, le_refl c0⟩
      · exact ⟨finalCk (orderedTrace src.rows sc bs c0) c0,
          foldl_orderedStep_checkpoint src.cols _ _ c0 htr,
          le_finalCk_orderedTrace src.rows sc bs c0⟩

/-- C2: with a marker column and a recorded checkpoint, every loop iteration
fetches at most `bs` rows strictly above the current checkpoint, ascending
by the marker; each fetched batch is nonempty, is appended to the
destination, and its maximum marker value is persisted as the new checkpoint
before the next fetch (the checkpoints chain); the loop terminates exactly
when a fetch returns zero rows; the pass appends exactly the concatenation
of the batches and counts the appended rows. -/
theorem c2_ordered_batch_strategy (h : List String → String) (schema table : String)
    (src : Table) (sc : String) (bs : Nat) (st : PgState) (c0 : Int)
    (hskip : should_skip_table schema table = false)
    (hck : st.checkpoint = some c0)
    (hne : src.rows ≠ []) :
    (∀ s ∈ orderedTrace src.rows sc bs c0,
      s.batch = fetchBatch src.rows sc s.before bs ∧
      s.batch ≠ [] ∧
      s.batch.length ≤ bs ∧
      (∀ r ∈ s.batch, r ∈ src.rows ∧ s.before < markerOf sc r) ∧
      markerSorted sc s.batch ∧
      s.after = listMax (s.batch.map (markerOf sc))) ∧
    ckChain c0 (orderedTrace src.rows sc bs c0) ∧
    fetchBatch src.rows sc (finalCk (orderedTrace src.rows sc bs c0) c0) bs = [] ∧
    destRows (incremental_sync_table h schema table src (some sc) bs st).1.dest
      = destRows st.dest ++ ((orderedTrace src.rows sc bs c0).map Step.batch).flatten ∧
    (incremental_sync_table h schema table src (some sc) bs st).1.checkpoint
      = some (finalCk (orderedTrace src.rows sc bs c0) c0) ∧
    (incremental_sync_table h schema table src (some sc) bs st).2
      = ((orderedTrace src.rows sc bs c0).map (fun s => s.batch.length)).sum := by
  obtain ⟨d, ck⟩ := st
  replace hck : ck = some c0 := hck
  subst hck
  rw [incr_ordered_run h schema table src sc bs d c0 hskip hne]
  refine ⟨?_, orderedTrace_chain src.rows sc bs c0, orderedTrace_final src.rows sc bs c0,
    ?_, ?_, ?_⟩
  · intro s hs
    obtain ⟨hb, hbne, hafter⟩ := orderedTrace_steps src.rows sc bs c0 s hs
    refine ⟨hb, hbne, ?_, ?_, ?_, hafter⟩
    · rw [hb]; exact length_fetchBatch_le src.rows sc s.before bs
    · intro r hr
      exact mem_fetchBatch (hb ▸ hr)
    · rw [hb]; exact sorted_fetchBatch src.rows sc s.before bs
  · rw [foldl_orderedStep_rows]
  · by_cases htr : orderedTrace src.rows sc bs c0 = []
    · rw [htr]; rfl
    · exact foldl_orderedStep_checkpoint src.cols _ _ c0 htr
  · rw [foldl_orderedStep_processed]
    exact Nat.zero_add _

/-- C2 witness: concrete run over a three-row table with checkpoint 1 and
batch size 2 (two batches: rows 2..3, then none above 3). -/
theorem c2_ordered_batch_strategy_witness :
    (∀ s ∈ orderedTrace exSrc3.rows "id" 2 1,
      s.batch = fetchBatch exSrc3.rows "id" s.before 2 ∧
      s.batch ≠ [] ∧
      s.batch.length ≤ 2 ∧
      (∀ r ∈ s.batch, r ∈ exSrc3.rows ∧ s.before < markerOf "id" r) ∧
      markerSorted "id" s.batch ∧
      s.after = listMax (s.batch.map (markerOf "id"))) ∧
    ckChain 1 (orderedTrace exSrc3.rows "id" 2 1) ∧
    fetchBatch exSrc3.rows "id" (finalCk (orderedTrace exSrc3.rows "id" 2 1) 1) 2 = [] ∧
    destRows (incremental_sync_table exHash "dbo" "items" exSrc3 (some "id") 2
        exStCk1).1.dest
      = destRows exStCk1.dest ++ ((orderedTrace exSrc3.rows "id" 2 1).map Step.batch).flatten ∧
    (incremental_sync_table exHash "dbo" "items" exSrc3 (some "id") 2 exStCk1).1.checkpoint
      = some (finalCk (orderedTrace exSrc3.rows "id" 2 1) 1) ∧
    (incremental_sync_table exHash "dbo" "items" exSrc3 (some "id") 2 exStCk1).2
      = ((orderedTrace exSrc3.rows "id" 2 1).map (fun s => s.batch.length)).sum :=
  c2_ordered_batch_strategy exHash "dbo" "items" exSrc3 "id" 2 exStCk1 1 (by decide) rfl
    (by decide)

/-- C6: checkpoint monotonicity — one incremental pass with a marker column
never moves the persisted checkpoint down, and over iterated passes the
checkpoint after pass N+1 is at least the one after pass N. -/
theorem c6_checkpoint_monotonicity (h : List String → String) (schema table : String)
    (srcs : Nat → Table) (sc : String) (bs : Nat) (st0 : PgState) (c0 : Int)
    (hck : st0.checkpoint = some c0) :
    (∀ (src : Table) (st : PgState) (c : Int), st.checkpoint = some c →
      ∃ c', (incremental_sync_table h schema table src (some sc) bs st).1.checkpoint
          = some c' ∧ c ≤ c') ∧
    (∀ N, ∃ cN cSN,
      (incremental_passes h schema table srcs sc bs st0 N).checkpoint = some cN ∧
      (incremental_passes h schema table srcs sc bs st0 (N + 1)).checkpoint = some cSN ∧
      cN ≤ cSN) := by
  refine ⟨fun src st c hc => checkpoint_mono_single h schema table src sc bs st c hc, ?_⟩
  have hinv : ∀ N, ∃ cN,
      (incremental_passes h schema table srcs sc bs st0 N).checkpoint = some cN := by
    intro N
    induction N with
    | zero => exact ⟨c0, hck⟩
    | succ N ih =>
      obtain ⟨cN, hcN⟩ := ih
      obtain ⟨c', hc', _⟩ := checkpoint_mono_single h schema table (srcs N) sc bs _ cN hcN
      exact ⟨c', hc'⟩
  intro N
  obtain ⟨cN, hcN⟩ := hinv N
  obtain ⟨cSN, hcSN, hle⟩ := checkpoint_mono_single h schema table (srcs N) sc bs _ cN hcN
  exact ⟨cN, cSN, hcN, hcSN, hle⟩

/-- C6 witness: one pass from checkpoint 1 over the three-row table, and the
pass-to-pass comparison at N = 0. -/
theorem c6_checkpoint_monotonicity_witness :
    (∃ c', (incremental_sync_table exHash "dbo" "items" exSrc3 (some "id") 2
        exStCk1).1.checkpoint = some c' ∧ (1 : Int) ≤ c') ∧
    (∃ cN cSN,
      (incremental_passes exHash "dbo" "items" (fun _ => exSrc3) "id" 2 exStCk1 0).checkpoint
        = some cN ∧
      (incremental_passes exHash "dbo" "items" (fun _ => exSrc3) "id" 2 exStCk1 1).checkpoint
        = some cSN ∧ cN ≤ cSN) :=
  have hc6 := c6_checkpoint_monotonicity exHash "dbo" "items" (fun _ => exSrc3) "id" 2
    exStCk1 1 rfl
  ⟨hc6.1 exSrc3 exStCk1 1 rfl, hc6.2 0⟩

theorem incr_no_ck_run (h : List String → String) (schema table : String)
    (src : Table) (sc : String) (bs : Nat) (st : PgState)
    (hskip : should_skip_table schema table = false)
    (hck : st.checkpoint = none) :
    incremental_sync_table h schema table src (some sc) bs st
      = hash_dedup_no_checkpoint h src sc st := by
  obtain ⟨d, ck⟩ := st
  replace hck : ck = none := hck
  subst hck
  unfold incremental_sync_table
  simp only [hskip, Bool.false_eq_true, if_false]
  rw [if_neg (fun hg => Bool.noConfusion hg.1)]

/-- C5 (counterexample): a table with marker column "id" and no recorded
checkpoint whose single row is already in the destination: the pass runs
hash-diff, inserts nothing, and does NOT persist the source maximum (the
checkpoint stays absent), while the claim requires persisting it (some 1). -/
theorem c5_no_checkpoint_counterexample :
    (incremental_sync_table exHash "dbo" "items" exSrc1 (some "id") 10 exStDup).1.checkpoint
      = none ∧
    listMax (exSrc1.rows.map (markerOf "id")) = 1 ∧
    (incremental_sync_table exHash "dbo" "items" exSrc1 (some "id") 10 exStDup).2 = 0 ∧
    (incremental_sync_table exHash "dbo" "items" exSrc1 (some "id") 10 exStDup).1.checkpoint
      ≠ some (listMax (exSrc1.rows.map (markerOf "id"))) := by
  refine ⟨?_, ?_, ?_, ?_⟩ <;> decide

/-- C5 (amended): with a marker column but no prior checkpoint the pass uses
the hash-based dedup over the full table (insert-all when the destination
reads back empty, otherwise append the rows with unseen hashes over the
common column set), and the maximum marker value observed in the source is
persisted as the new checkpoint only when at least one row was inserted and
the marker column is among the fetched columns; otherwise no checkpoint is
written. -/
theorem c5_no_checkpoint_hash_diff_amended (h : List String → String)
    (schema table : String) (src : Table) (sc : String) (bs : Nat) (st : PgState)
    (hskip : should_skip_table schema table = false)
    (hck : st.checkpoint = none) (hsrc : src.rows ≠ []) :
    destRows (incremental_sync_table h schema table src (some sc) bs st).1.dest
      = (if (ensure_table_and_columns st.dest src.cols).rows = [] then src.rows
         else if src.cols.filter
             (fun c => decide (c ∈ (ensure_table_and_columns st.dest src.cols).cols)) = []
         then (ensure_table_and_columns st.dest src.cols).rows
         else (ensure_table_and_columns st.dest src.cols).rows
           ++ hashNewRows h
                (src.cols.filter
                  (fun c => decide (c ∈ (ensure_table_and_columns st.dest src.cols).cols)))
                (ensure_table_and_columns st.dest src.cols).rows src.rows) ∧
    (incremental_sync_table h schema table src (some sc) bs st).1.checkpoint
      = (if 0 < (incremental_sync_table h schema table src (some sc) bs st).2 ∧ sc ∈ src.cols
         then some (listMax (src.rows.map (markerOf sc)))
         else none) ∧
    (incremental_sync_table h schema table src (some sc) bs st).2
      = (if (ensure_table_and_columns st.dest src.cols).rows = [] then src.rows.length
         else if src.cols.filter
             (fun c => decide (c ∈ (ensure_table_and_columns st.dest src.cols).cols)) = []
         then 0
         else (hashNewRows h
                (src.cols.filter
                  (fun c => decide (c ∈ (ensure_table_and_columns st.dest src.cols).cols)))
                (ensure_table_and_columns st.dest src.cols).rows src.rows).length) := by
  rw [incr_no_ck_run h schema table src sc bs st hskip hck]
  have hpos : 0 < src.rows.length := List.length_pos.mpr hsrc
  unfold hash_dedup_no_checkpoint
  rw [if_neg hsrc]
  by_cases h2 : (ensure_table_and_columns st.dest src.cols).rows = []
  · rw [if_pos h2, if_pos h2, if_pos h2]
    refine ⟨by rw [destRows, h2, List.nil_append], ?_, rfl⟩
    by_cases hmem : sc ∈ src.cols
    · simp [hmem, hpos]
    · simp [hmem, hck]
  · rw [if_neg h2, if_neg h2, if_neg h2]
    by_cases h3 : src.cols.filter
        (fun c => decide (c ∈ (ensure_table_and_columns st.dest src.cols).cols)) = []
    · rw [if_pos h3, if_pos h3, if_pos h3]
      exact ⟨rfl, by simp [hck], rfl⟩
    · rw [if_neg h3, if_neg h3, if_neg h3]
      by_cases h4 : hashNewRows h
          (src.cols.filter
            (fun c => decide (c ∈ (ensure_table_and_columns st.dest src.cols).cols)))
          (ensure_table_and_columns st.dest src.cols).rows src.rows = []
      · rw [if_pos h4]
        refine ⟨by rw [destRows, h4, List.append_nil], by simp [hck], by rw [h4]; rfl⟩
      · rw [if_neg h4]
        have hpos4 : 0 < (hashNewRows h
            (src.cols.filter
              (fun c => decide (c ∈ (ensure_table_and_columns st.dest src.cols).cols)))
            (ensure_table_and_columns st.dest src.cols).rows src.rows).length :=
          List.length_pos.mpr h4
        refine ⟨rfl, ?_, rfl⟩
        by_cases hmem : sc ∈ src.cols
        · simp [hmem, hpos4]
        · simp [hmem, hck]

/-- C5 witness for the amended claim: empty destination, one-row source with
marker column "id" — everything is inserted and checkpoint 1 is persisted. -/
theorem c5_no_checkpoint_hash_diff_amended_witness :
    destRows (incremental_sync_table exHash "dbo" "items" exSrc1 (some "id") 10
        { dest := none, checkpoint := none }).1.dest
      = (if (ensure_table_and_columns (none : Option Table) exSrc1.cols).rows = []
         then exSrc1.rows
         else if exSrc1.cols.filter
             (fun c => decide (c ∈ (ensure_table_and_columns (none : Option Table) exSrc1.cols).cols)) = []
         then (ensure_table_and_columns (none : Option Table) exSrc1.cols).rows
         else (ensure_table_and_columns (none : Option Table) exSrc1.cols).rows
           ++ hashNewRows exHash
                (exSrc1.cols.filter
                  (fun c => decide (c ∈ (ensure_table_and_columns (none : Option Table) exSrc1.cols).cols)))
                (ensure_table_and_columns (none : Option Table) exSrc1.cols).rows exSrc1.rows) ∧
    (incremental_sync_table exHash "dbo" "items" exSrc1 (some "id") 10
        { dest := none, checkpoint := none }).1.checkpoint
      = (if 0 < (incremental_sync_table exHash "dbo" "items" exSrc1 (some "id") 10
            { dest := none, checkpoint := none }).2 ∧ "id" ∈ exSrc1.cols
         then some (listMax (exSrc1.rows.map (markerOf "id")))
         else none) ∧
    (incremental_sync_table exHash "dbo" "items" exSrc1 (some "id") 10
        { dest := none, checkpoint := none }).2
      = (if (ensure_table_and_columns (none : Option Table) exSrc1.cols).rows = []
         then exSrc1.rows.length
         else if exSrc1.cols.filter
             (fun c => decide (c ∈ (ensure_table_and_columns (none : Option Table) exSrc1.cols).cols)) = []
         then 0
         else (hashNewRows exHash
                (exSrc1.cols.filter
                  (fun c => decide (c ∈ (ensure_table_and_columns (none : Option Table) exSrc1.cols).cols)))
                (ensure_table_and_columns (none : Option Table) exSrc1.cols).rows
                exSrc1.rows).length) :=
  c5_no_checkpoint_hash_diff_amended exHash "dbo" "items" exSrc1 "id" 10
    { dest := none, checkpoint := none } (by decide) rfl (by decide)

theorem commonCols_of_rows_nil (src t : Table) (ht : t.rows = []) :
    commonCols src t = src.cols := by
  unfold commonCols
  rw [if_neg (not_not_intro ht)]

theorem commonCols_of_rows_ne (src t : Table) (ht : t.rows ≠ []) :
    commonCols src t = src.cols.filter (fun c => decide (c ∈ t.cols)) := by
  unfold commonCols
  rw [if_pos ht]

theorem hash_diff_common_nil (h : List String → String) (src : Table) (st : PgState)
    (hsrc : src.rows ≠ [])
    (hA : commonCols src (ensure_table_and_columns st.dest src.cols) = []) :
    hash_diff_sync h src st
      = ({ dest := some (ensure_table_and_columns st.dest src.cols),
           checkpoint := st.checkpoint }, 0) := by
  unfold hash_diff_sync
  rw [if_neg hsrc, if_pos hA]

theorem hash_diff_insert_all (h : List String → String) (src : Table) (st : PgState)
    (hsrc : src.rows ≠ [])
    (hA : ¬ commonCols src (ensure_table_and_columns st.dest src.cols) = [])
    (hB : (ensure_table_and_columns st.dest src.cols).rows = []) :
    hash_diff_sync h src st
      = ({ dest := some { cols := (ensure_table_and_columns st.dest src.cols).cols,
                          rows := (ensure_table_and_columns st.dest src.cols).rows
                            ++ src.rows },
           checkpoint := st.checkpoint }, src.rows.length) := by
  unfold hash_diff_sync
  rw [if_neg hsrc, if_neg hA, if_pos hB]

theorem hash_diff_dedup_nil (h : List String → String) (src : Table) (st : PgState)
    (hsrc : src.rows ≠ [])
    (hA : ¬ commonCols src (ensure_table_and_columns st.dest src.cols) = [])
    (hB : ¬ (ensure_table_and_columns st.dest src.cols).rows = [])
    (hC : hashNewRows h (commonCols src (ensure_table_and_columns st.dest src.cols))
      (ensure_table_and_columns st.dest src.cols).rows src.rows = []) :
    hash_diff_sync h src st
      = ({ dest := some (ensure_table_and_columns st.dest src.cols),
           checkpoint := st.checkpoint }, 0) := by
  unfold hash_diff_sync
  rw [if_neg hsrc, if_neg hA, if_neg hB, if_pos hC]

theorem hash_diff_dedup_insert (h : List String → String) (src : Table) (st : PgState)
    (hsrc : src.rows ≠ [])
    (hA : ¬ commonCols src (ensure_table_and_columns st.dest src.cols) = [])
    (hB : ¬ (ensure_table_and_columns st.dest src.cols).rows = [])
    (hC : ¬ hashNewRows h (commonCols src (ensure_table_and_columns st.dest src.cols))
      (ensure_table_and_columns st.dest src.cols).rows src.rows = []) :
    hash_diff_sync h src st
      = ({ dest := some { cols := (ensure_table_and_columns st.dest src.cols).cols,
                          rows := (ensure_table_and_columns st.dest src.cols).rows
                            ++ hashNewRows h
                                (commonCols src (ensure_table_and_columns st.dest src.cols))
                                (ensure_table_and_columns st.dest src.cols).rows src.rows },
           checkpoint := st.checkpoint },
         (hashNewRows h (commonCols src (ensure_table_and_columns st.dest src.cols))
           (ensure_table_and_columns st.dest src.cols).rows src.rows).length) := by
  unfold hash_diff_sync
  rw [if_neg hsrc, if_neg hA, if_neg hB, if_neg hC]

theorem hashNewRows_eq_nil (h : List String → String) (common : List String)
    (dstRows srcRows : List Row)
    (hall : ∀ r ∈ srcRows,
      h (rowKey common r) ∈ dstRows.map (fun d2 => h (rowKey common d2))) :
    hashNewRows h common dstRows srcRows = [] := by
  unfold hashNewRows
  rw [List.filter_eq_nil_iff]
  intro r hr
  simp only [decide_eq_true_eq, not_not]
  exact hall r hr

theorem hall_of_no_new (h : List String → String) (common : List String)
    (dstRows srcRows : List Row)
    (hC : hashNewRows h common dstRows srcRows = []) (r : Row) (hr : r ∈ srcRows) :
    h (rowKey common r) ∈ dstRows.map (fun d2 => h (rowKey common d2)) := by
  have h5 := List.filter_eq_nil_iff.mp hC r hr
  simp only [decide_eq_true_eq, not_not] at h5
  exact h5

theorem hall_after_dedup (h : List String → String) (common : List String)
    (dstRows srcRows : List Row) (r : Row) (hr : r ∈ srcRows) :
    h (rowKey common r) ∈ (dstRows ++ hashNewRows h common dstRows srcRows).map
        (fun d2 => h (rowKey common d2)) := by
  rw [List.map_append]
  by_cases hmem : h (rowKey common r) ∈ dstRows.map (fun d2 => h (rowKey common d2))
  · exact List.mem_append_left _ hmem
  · exact List.mem_append_right _
      (List.mem_map_of_mem _ (List.mem_filter.mpr ⟨hr, decide_eq_true hmem⟩))

theorem mem_map_hash_append_right (f : Row → String) (a b : List Row) (r : Row)
    (hr : r ∈ b) : f r ∈ (a ++ b).map f := by
  rw [List.map_append]
  exact List.mem_append_right _ (List.mem_map_of_mem f hr)

theorem common_filter_stable (st : PgState) (src : Table) :
    src.cols.filter (fun c => decide (c ∈ ensureCols
        (some (ensure_table_and_columns st.dest src.cols).cols) src.cols))
      = src.cols.filter
          (fun c => decide (c ∈ (ensure_table_and_columns st.dest src.cols).cols)) := by
  rw [ensure_cols_eq st.dest src.cols]
  exact filter_ensureCols_twice (st.dest.map Table.cols) src.cols

theorem commonCols_stable (st : PgState) (src : Table) (t2 : Table)
    (hcols2 : t2.cols = (ensure_table_and_columns st.dest src.cols).cols)
    (hne2 : t2.rows ≠ []) :
    commonCols src (ensure_table_and_columns (some t2) src.cols)
      = src.cols.filter
          (fun c => decide (c ∈ (ensure_table_and_columns st.dest src.cols).cols)) := by
  rw [commonCols_of_rows_ne src (ensure_table_and_columns (some t2) src.cols) hne2]
  show src.cols.filter (fun c => decide (c ∈ ensureCols (some t2.cols) src.cols)) = _
  rw [hcols2]
  exact common_filter_stable st src

theorem hash_diff_snd_zero (h : List String → String) (src : Table)
    (d : Option Table) (ck : Option Int) (hsrc : src.rows ≠ [])
    (hrows : (ensure_table_and_columns d src.cols).rows ≠ [])
    (hall : ∀ r ∈ src.rows,
      h (rowKey (commonCols src (ensure_table_and_columns d src.cols)) r)
        ∈ (ensure_table_and_columns d src.cols).rows.map
            (fun d2 => h (rowKey
              (commonCols src (ensure_table_and_columns d src.cols)) d2))) :
    (hash_diff_sync h src { dest := d, checkpoint := ck }).2 = 0 := by
  by_cases hA : commonCols src (ensure_table_and_columns d src.cols) = []
  · rw [hash_diff_common_nil h src { dest := d, checkpoint := ck } hsrc hA]
  · have hC : hashNewRows h (commonCols src (ensure_table_and_columns d src.cols))
        (ensure_table_and_columns d src.cols).rows src.rows = [] :=
      hashNewRows_eq_nil h _ _ _ hall
    rw [hash_diff_dedup_nil h src { dest := d, checkpoint := ck } hsrc hA hrows hC]

theorem hash_diff_sync_idempotent (h : List String → String) (src : Table) (st : PgState)
    (hsrc : src.rows ≠ []) :
    (hash_diff_sync h src (hash_diff_sync h src st).1).2 = 0 := by
  by_cases hA : commonCols src (ensure_table_and_columns st.dest src.cols) = []
  · rw [hash_diff_common_nil h src st hsrc hA]
    show (hash_diff_sync h src
      { dest := some (ensure_table_and_columns st.dest src.cols),
        checkpoint := st.checkpoint }).2 = 0
    by_cases hB : (ensure_table_and_columns st.dest src.cols).rows = []
    · have hcols : src.cols = [] := by
        rw [commonCols_of_rows_nil src _ hB] at hA
        exact hA
      have hA2 : commonCols src (ensure_table_and_columns
          (some (ensure_table_and_columns st.dest src.cols)) src.cols) = [] := by
        rw [commonCols_of_rows_nil src (ensure_table_and_columns
          (some (ensure_table_and_columns st.dest src.cols)) src.cols) hB]
        exact hcols
      rw [hash_diff_common_nil h src
        { dest := some (ensure_table_and_columns st.dest src.cols),
          checkpoint := st.checkpoint } hsrc hA2]
    · have hA2 : commonCols src (ensure_table_and_columns
          (some (ensure_table_and_columns st.dest src.cols)) src.cols) = [] := by
        rw [commonCols_stable st src (ensure_table_and_columns st.dest src.cols) rfl hB]
        rw [← commonCols_of_rows_ne src (ensure_table_and_columns st.dest src.cols) hB]
        exact hA
      rw [hash_diff_common_nil h src
        { dest := some (ensure_table_and_columns st.dest src.cols),
          checkpoint := st.checkpoint } hsrc hA2]
  · by_cases hB : (ensure_table_and_columns st.dest src.cols).rows = []
    · rw [hash_diff_insert_all h src st hsrc hA hB]
      show (hash_diff_sync h src
        { dest := some { cols := (ensure_table_and_columns st.dest src.cols).cols,
                         rows := (ensure_table_and_columns st.dest src.cols).rows
                           ++ src.rows },
          checkpoint := st.checkpoint }).2 = 0
      refine hash_diff_snd_zero h src
        (some { cols := (ensure_table_and_columns st.dest src.cols).cols,
                rows := (ensure_table_and_columns st.dest src.cols).rows ++ src.rows })
        st.checkpoint hsrc ?_ ?_
      · show (ensure_table_and_columns st.dest src.cols).rows ++ src.rows ≠ []
        intro hnil
        exact hsrc (List.append_eq_nil.mp hnil).2
      · intro r hr
        exact mem_map_hash_append_right _
          (ensure_table_and_columns st.dest src.cols).rows src.rows r hr
    · by_cases hC : hashNewRows h
          (commonCols src (ensure_table_and_columns st.dest src.cols))
          (ensure_table_and_columns st.dest src.cols).rows src.rows = []
      · rw [hash_diff_dedup_nil h src st hsrc hA hB hC]
        show (hash_diff_sync h src
          { dest := some (ensure_table_and_columns st.dest src.cols),
            checkpoint := st.checkpoint }).2 = 0
        refine hash_diff_snd_zero h src
          (some (ensure_table_and_columns st.dest src.cols)) st.checkpoint hsrc ?_ ?_
        · show (ensure_table_and_columns st.dest src.cols).rows ≠ []
          exact hB
        · intro r hr
          have hstab : commonCols src (ensure_table_and_columns
              (some (ensure_table_and_columns st.dest src.cols)) src.cols)
              = commonCols src (ensure_table_and_columns st.dest src.cols) := by
            rw [commonCols_stable st src (ensure_table_and_columns st.dest src.cols) rfl hB]
            rw [← commonCols_of_rows_ne src (ensure_table_and_columns st.dest src.cols) hB]
          rw [hstab]
          exact hall_of_no_new h _ _ _ hC r hr
      · rw [hash_diff_dedup_insert h src st hsrc hA hB hC]
        show (hash_diff_sync h src
          { dest := some { cols := (ensure_table_and_columns st.dest src.cols).cols,
                           rows := (ensure_table_and_columns st.dest src.cols).rows
                             ++ hashNewRows h
                                 (commonCols src (ensure_table_and_columns st.dest src.cols))
                                 (ensure_table_and_columns st.dest src.cols).rows
                                 src.rows },
            checkpoint := st.checkpoint }).2 = 0
        refine hash_diff_snd_zero h src
          (some { cols := (ensure_table_and_columns st.dest src.cols).cols,
                  rows := (ensure_table_and_columns st.dest src.cols).rows
                    ++ hashNewRows h
                        (commonCols src (ensure_table_and_columns st.dest src.cols))
                        (ensure_table_and_columns st.dest src.cols).rows src.rows })
          st.checkpoint hsrc ?_ ?_
        · show (ensure_table_and_columns st.dest src.cols).rows
              ++ hashNewRows h
                  (commonCols src (ensure_table_and_columns st.dest src.cols))
                  (ensure_table_and_columns st.dest src.cols).rows src.rows ≠ []
          intro hnil
          exact hB (List.append_eq_nil.mp hnil).1
        · intro r hr
          have hstab : commonCols src (ensure_table_and_columns
              (some { cols := (ensure_table_and_columns st.dest src.cols).cols,
                      rows := (ensure_table_and_columns st.dest src.cols).rows
                        ++ hashNewRows h
                            (commonCols src (ensure_table_and_columns st.dest src.cols))
                            (ensure_table_and_columns st.dest src.cols).rows src.rows })
              src.cols)
              = commonCols src (ensure_table_and_columns st.dest src.cols) := by
            rw [commonCols_stable st src
              { cols := (ensure_table_and_columns st.dest src.cols).cols,
                rows := (ensure_table_and_columns st.dest src.cols).rows
                  ++ hashNewRows h
                      (commonCols src (ensure_table_and_columns st.dest src.cols))
                      (ensure_table_and_columns st.dest src.cols).rows src.rows }
              rfl (fun hnil => hB (List.append_eq_nil.mp hnil).1)]
            rw [← commonCols_of_rows_ne src (ensure_table_and_columns st.dest src.cols) hB]
          rw [hstab]
          exact hall_after_dedup h
            (commonCols src (ensure_table_and_columns st.dest src.cols))
            (ensure_table_and_columns st.dest src.cols).rows src.rows r hr

theorem incr_none_run (h : List String → String) (schema table : String)
    (src : Table) (bs : Nat) (st : PgState)
    (hskip : should_skip_table schema table = false)
    (hsrc : src.rows ≠ []) :
    incremental_sync_table h schema table src none bs st = hash_diff_sync h src st := by
  unfold incremental_sync_table
  simp only [hskip, Bool.false_eq_true, if_false]
  rw [if_neg (fun hg => hsrc (List.length_eq_zero.mp hg.2))]

/-- C3: hash-diff change detection is idempotent: for a non-skipped table
without a marker column and a nonempty, unchanged source, running the
incremental pass twice in a row inserts zero rows on the second run. -/
theorem c3_hash_diff_idempotent (h : List String → String) (schema table : String)
    (src : Table) (bs : Nat) (st : PgState)
    (hskip : should_skip_table schema table = false)
    (hsrc : src.rows ≠ []) :
    (incremental_sync_table h schema table src none bs
      (incremental_sync_table h schema table src none bs st).1).2 = 0 := by
  rw [incr_none_run h schema table src bs st hskip hsrc]
  rw [incr_none_run h schema table src bs _ hskip hsrc]
  exact hash_diff_sync_idempotent h src st hsrc

/-- C3 witness: the hash-diff pass over a fresh destination inserts the
three source rows on the first run and zero rows on the second. -/
theorem c3_hash_diff_idempotent_witness :
    (incremental_sync_table exHash "dbo" "items" exSrc3 none 10
      (incremental_sync_table exHash "dbo" "items" exSrc3 none 10
        { dest := none, checkpoint := none }).1).2 = 0 :=
  c3_hash_diff_idempotent exHash "dbo" "items" exSrc3 10
    { dest := none, checkpoint := none } (by decide) (by decide)

/-- C9 (amended): database-level errors propagate out of the database pass
(`full_sync_database` / `incremental_sync_database`) and out of the
per-database loop to the per-server handler, but
`process_sql_server_hybrid` catches every exception, logs it, and returns
normally — nothing is re-raised to the scheduler or interactive trigger. -/
theorem c9_error_propagation_amended (e : String) (rest : List DbPass)
    (dbs : Except String (List DbPass)) :
    full_sync_database (Except.error e) = Except.error e ∧
    incremental_sync_database (Except.error e) = Except.error e ∧
    server_try_body (Except.ok (Except.error e :: rest)) = Except.error e ∧
    process_sql_server_hybrid dbs = Except.ok () := by
  refine ⟨rfl, rfl, rfl, ?_⟩
  rcases hsb : server_try_body dbs with e1 | u <;> simp [process_sql_server_hybrid, hsb]

end HybridSync
